import Mathlib

/-!
Verification of the vibe-kanban workspace / sequential-queue core.

Shallow embedding of:
- crates/services/src/services/sequential_queue.rs (SequentialQueueService)
- crates/services/src/services/workspace_manager.rs (WorkspaceManager)

The persistence layer (crates/db models/task.rs) and the working-tree
primitive (worktree_manager.rs) are not part of the sources; those
operations are modelled from the specification, as marked on each
definition.

Paths are modelled as lists of components (List String); the database is
modelled as a list of task rows; machine integers (i32 positions) are
modelled as Int, with the one place where a Rust integer cast matters
(i32 to usize in reorder) made explicit.
-/

namespace VibeKanban

/-- Task status, from the data model (Todo, InProgress, InReview, Done,
Cancelled). -/
inductive TaskStatus where
  | Todo
  | InProgress
  | InReview
  | Done
  | Cancelled
deriving DecidableEq, Repr

/-- Execution mode of a task (Parallel or Sequential). -/
inductive ExecutionMode where
  | Parallel
  | Sequential
deriving DecidableEq, Repr

/-- A task row, with the fields the queue service reads and writes. -/
structure Task where
  id : Nat
  project_id : Nat
  status : TaskStatus
  execution_mode : ExecutionMode
  queue_position : Option Int
deriving DecidableEq, Repr

/-- Errors of the sequential queue service (sequential_queue.rs). -/
inductive SequentialQueueError where
  | Database
  | TaskNotFound (id : Nat)
  | NotSequentialMode
deriving DecidableEq, Repr

/-- Modelled from the spec: persistence query find_by_id (task CRUD). -/
def find_by_id (db : List Task) (task_id : Nat) : Option Task :=
  db.find? (fun t => t.id == task_id)

/-- Modelled from the spec: persistence update update_queue_position sets
one task row's queue_position. -/
def update_queue_position (db : List Task) (task_id : Nat) (pos : Option Int) : List Task :=
  db.map (fun t => if t.id == task_id then { t with queue_position := pos } else t)

/-- Sort key used for queue ordering: the queue position (spec: positions
are set for all sequential tasks; a missing position sorts as 0). -/
def posKey (t : Task) : Int :=
  t.queue_position.getD 0

/-- Stable insertion into a list ascending by posKey. -/
def insertByPos (t : Task) : List Task → List Task
  | [] => [t]
  | u :: us => if posKey u ≤ posKey t then u :: insertByPos t us else t :: u :: us

/-- Stable sort ascending by posKey. -/
def sortByPos (l : List Task) : List Task :=
  l.foldr insertByPos []

/-- Modelled from the spec: find_sequential_queue_for_project returns all
sequential-mode tasks of the project, ordered ascending by position. -/
def find_sequential_queue_for_project (db : List Task) (project_id : Nat) : List Task :=
  sortByPos (db.filter (fun t =>
    t.project_id == project_id && t.execution_mode == ExecutionMode.Sequential))

/-- Modelled from the spec: get_next_in_queue / find_next_pending returns
the first task in queue order whose status is Todo. -/
def get_next_in_queue (db : List Task) (project_id : Nat) : Option Task :=
  (find_sequential_queue_for_project db project_id).find? (fun t => t.status == TaskStatus.Todo)

/-- Modelled from the spec: has_running_sequential_task is true iff some
sequential-mode task of the project has status InProgress. -/
def has_running_sequential_task (db : List Task) (project_id : Nat) : Bool :=
  db.any (fun t =>
    t.project_id == project_id && t.execution_mode == ExecutionMode.Sequential
      && t.status == TaskStatus.InProgress)

/-- SequentialQueueService::reorder (sequential_queue.rs lines 83-126).
Fetches the task, requires sequential mode, no-ops when the current
position (0 when unset) equals the requested one, otherwise renumbers the
rest of the queue and assigns new_position to the moved task.
The Rust cast of new_position (i32) to usize wraps negative values far
above any queue length, so the min with queue.len() yields queue.len();
the model makes that case explicit. -/
def reorder (db : List Task) (project_id task_id : Nat) (new_position : Int) :
    Except SequentialQueueError (List Task) :=
  match find_by_id db task_id with
  | none => .error (.TaskNotFound task_id)
  | some task =>
    if task.execution_mode ≠ ExecutionMode.Sequential then
      .error .NotSequentialMode
    else
      let current_position := task.queue_position.getD 0
      if current_position = new_position then
        .ok db
      else
        let queue := (find_sequential_queue_for_project db project_id).filter
          (fun t => t.id != task_id)
        let insert_pos : Nat :=
          if new_position < 0 then queue.length
          else min new_position.toNat queue.length
        let db1 := queue.enum.foldl
          (fun acc p =>
            update_queue_position acc p.2.id
              (some (if p.1 < insert_pos then (p.1 : Int) + 1 else (p.1 : Int) + 2)))
          db
        .ok (update_queue_position db1 task_id (some new_position))

/-- SequentialQueueService::process_queue_after_completion
(sequential_queue.rs lines 130-169): returns none unless the completed
task was sequential with a terminal-for-scheduling status and no
sequential task of the project is running; otherwise returns the next
pending task. -/
def process_queue_after_completion (db : List Task) (completed_task : Task) : Option Task :=
  if completed_task.execution_mode ≠ ExecutionMode.Sequential then
    none
  else if ¬(completed_task.status = TaskStatus.Done
      ∨ completed_task.status = TaskStatus.Cancelled
      ∨ completed_task.status = TaskStatus.InReview) then
    none
  else if has_running_sequential_task db completed_task.project_id then
    none
  else
    get_next_in_queue db completed_task.project_id

/-! ## Workspace lifecycle manager (workspace_manager.rs) -/

/-- A filesystem path, as a list of components. -/
abbrev Path : Type := List String

/-- Branch sanitization from compute_worktree_path: every / character of
the branch name is replaced by - (Rust: branch_name.replace with a
single-character pattern and replacement). -/
def sanitizeBranch (branch_name : String) : String :=
  ⟨branch_name.data.map (fun c => if c = '/' then '-' else c)⟩

/-- WorkspaceManager::compute_worktree_path (workspace_manager.rs lines
59-69): the worktree lives as a sibling of the source repo, named
repo_name - sanitized_branch; the parent of an empty path is the path
itself, and a missing file name falls back to "repo". -/
def compute_worktree_path (repo_path : Path) (branch_name : String) : Path :=
  let parent : List String := (repo_path : List String).dropLast
  let repo_name := ((repo_path : List String).getLast?).getD "repo"
  let sanitized_branch := sanitizeBranch branch_name
  parent ++ [repo_name ++ "-" ++ sanitized_branch]

/-- A repository row: {id, name, path}. -/
structure Repo where
  id : Nat
  name : String
  path : Path
deriving DecidableEq, Repr

/-- Input to create_workspace: a repo plus its target branch. -/
structure RepoWorkspaceInput where
  repo : Repo
  target_branch : String
deriving DecidableEq, Repr

/-- Errors of the workspace manager (workspace_manager.rs lines 26-36).
PartialCreation carries the failing repo name and the underlying cause
(the Rust code formats both into one string). -/
inductive WorkspaceError where
  | Worktree (msg : String)
  | Io (msg : String)
  | NoRepositories
  | PartialCreation (repo_name cause : String)
deriving DecidableEq, Repr

/-- The materialized worktree of one repo inside one workspace. -/
structure RepoWorktree where
  repo_id : Nat
  repo_name : String
  source_repo_path : Path
  worktree_path : Path
deriving DecidableEq, Repr

/-- Result of a successful workspace build. -/
structure WorktreeContainer where
  workspace_dir : Path
  worktrees : List RepoWorktree
deriving DecidableEq, Repr

/-- Filesystem state as the workspace build observes it: the plain
directories, the worktree roots, and the symlinks (link path, target). -/
structure WsFS where
  dirs : List Path
  worktrees : List Path
  symlinks : List (Path × Path)
deriving DecidableEq, Repr

/-- Is q strictly below the directory d (a proper extension of it)? -/
def strictUnder (d q : Path) : Bool :=
  (d : List String).isPrefixOf (q : List String) && (d : List String) != (q : List String)

/-- tokio::fs::create_dir_all on the model: the directory exists
afterwards. -/
def createDirAll (fs : WsFS) (d : Path) : WsFS :=
  if d ∈ fs.dirs then fs else { fs with dirs := d :: fs.dirs }

/-- Modelled from the spec: the working-tree primitive create places a
worktree at the target path (success case). -/
def addWorktree (fs : WsFS) (p : Path) : WsFS :=
  if p ∈ fs.worktrees then fs else { fs with worktrees := p :: fs.worktrees }

/-- Modelled from the spec: the working-tree primitive cleanup removes the
worktree at the given path. -/
def removeWorktree (fs : WsFS) (p : Path) : WsFS :=
  { fs with worktrees := fs.worktrees.filter (fun q => q != p) }

/-- tokio::fs::remove_dir (non-recursive) on the model: removes the
directory only when it exists and nothing lies strictly below it; the
Rust code ignores the error otherwise. -/
def removeDirIfEmpty (fs : WsFS) (d : Path) : WsFS :=
  if d ∈ fs.dirs
      && fs.dirs.all (fun q => !strictUnder d q)
      && fs.worktrees.all (fun q => !strictUnder d q)
      && fs.symlinks.all (fun s => !strictUnder d s.1) then
    { fs with dirs := fs.dirs.filter (fun q => q != d) }
  else fs

/-- Rollback helper cleanup_created_worktrees (workspace_manager.rs lines
376-390): best-effort cleanup of each created worktree. -/
def rollbackWorktrees (created : List RepoWorktree) (fs : WsFS) : WsFS :=
  created.foldl (fun acc w => removeWorktree acc w.worktree_path) fs

/-- Symlink placement from create_workspace (lines 146-172): replace
whatever sits at workspace_dir/repo_name, then link it to the worktree. -/
def placeSymlink (workspace_dir : Path) (fs : WsFS) (w : RepoWorktree) : WsFS :=
  let lp : Path := workspace_dir ++ [w.repo_name]
  let fs :=
    if fs.symlinks.any (fun s => s.1 == lp) then
      { fs with symlinks := fs.symlinks.filter (fun s => s.1 != lp) }
    else if lp ∈ fs.dirs then
      { fs with dirs := fs.dirs.filter (fun q => q != lp) }
    else fs
  { fs with symlinks := (lp, w.worktree_path) :: fs.symlinks }

/-- The per-repo loop of create_workspace (lines 94-144). create gives
the outcome of the working-tree primitive for the repo at each index
(modelled from the spec as an injected capability). On the first failure
all worktrees created so far are rolled back, the workspace directory is
removed when empty, and PartialCreation is returned with the failing repo
name and cause. -/
def createLoop (wd : Path) (branch_name : String) (create : Nat → Except String Unit) :
    List RepoWorkspaceInput → Nat → List RepoWorktree → WsFS →
    Except WorkspaceError (List RepoWorktree) × WsFS
  | [], _, created, fs => (.ok created, fs)
  | input :: rest, i, created, fs =>
    let worktree_path := compute_worktree_path input.repo.path branch_name
    match create i with
    | .ok _ =>
      createLoop wd branch_name create rest (i + 1)
        (created ++ [⟨input.repo.id, input.repo.name, input.repo.path, worktree_path⟩])
        (addWorktree fs worktree_path)
    | .error e =>
      let fs1 := rollbackWorktrees created fs
      let fs2 := removeDirIfEmpty fs1 wd
      (.error (.PartialCreation input.repo.name e), fs2)

/-- WorkspaceManager::create_workspace (workspace_manager.rs lines
74-183): empty-repo check, create the shared directory, per-repo worktree
creation with rollback on first failure, then symlink placement. -/
def create_workspace (fs : WsFS) (workspace_dir : Path)
    (repos : List RepoWorkspaceInput) (branch_name : String)
    (create : Nat → Except String Unit) :
    Except WorkspaceError WorktreeContainer × WsFS :=
  if repos.isEmpty then
    (.error .NoRepositories, fs)
  else
    let fs := createDirAll fs workspace_dir
    match createLoop workspace_dir branch_name create repos 0 [] fs with
    | (.ok created, fs) =>
      let fs := created.foldl (placeSymlink workspace_dir) fs
      (.ok ⟨workspace_dir, created⟩, fs)
    | (.error e, fs) => (.error e, fs)

/-! ### Reconcile (ensure_workspace_exists)

The reconcile pass only ever inspects, for each repo, the entry at the
legacy path workspace_dir/repo_name (does it exist, is it a symlink, does
it hold a .git file) and whether a worktree exists at the new sibling
path. The model records exactly those observations per repo. -/

/-- What sits at the legacy path workspace_dir/repo_name. -/
inductive OldSlot where
  | empty
  | worktreeDir
  | link
  | plainDir
deriving DecidableEq, Repr

/-- Per-repo filesystem observations of the reconcile pass: the legacy
slot and whether the sibling worktree exists. -/
structure RepoSlots where
  oldSlot : OldSlot
  newSlot : Bool
deriving DecidableEq, Repr

/-- Filesystem state as the reconcile pass observes it: whether the
shared directory exists and the per-repo slots (one entry per repo of the
input list). -/
structure EnsureFS where
  wdExists : Bool
  slots : List RepoSlots
deriving DecidableEq, Repr

/-- One iteration of the repo loop in ensure_workspace_exists (lines
202-273): migrate a legacy worktree when detected (the primitive move
succeeds only when the sibling slot is free, modelled from the spec; on
failure the legacy directory is removed), ensure the sibling worktree
exists (modelled from the spec: creates if absent, no-op if present),
then normalize the legacy path to a symlink. -/
def ensureRepoStep (s : RepoSlots) : RepoSlots :=
  let s :=
    match s.oldSlot with
    | .worktreeDir =>
      if s.newSlot then { s with oldSlot := OldSlot.empty }
      else { oldSlot := OldSlot.empty, newSlot := true }
    | _ => s
  let s := { s with newSlot := true }
  { s with oldSlot := OldSlot.link }

/-- WorkspaceManager::ensure_workspace_exists (workspace_manager.rs lines
188-276): empty-repo check, ensure the shared directory, then the
per-repo repair loop. -/
def ensure_workspace_exists (fs : EnsureFS) : Except WorkspaceError Unit × EnsureFS :=
  if fs.slots.isEmpty then
    (.error .NoRepositories, fs)
  else
    (.ok (), { wdExists := true, slots := fs.slots.map ensureRepoStep })

/-! ### Legacy single-tree migration -/

/-- Where the legacy working tree currently lives during
migrate_legacy_worktree. -/
inductive LegacyLoc where
  | inWd
  | inTemp
  | inExpected
  | absent
deriving DecidableEq, Repr

/-- Filesystem state as migrate_legacy_worktree observes it: the location
of the working tree and whether workspace_dir exists. The expected new
path exists iff the tree is at inExpected; workspace_dir holds a .git
file iff the tree is at inWd. -/
structure MigrateFS where
  loc : LegacyLoc
  wdExists : Bool
deriving DecidableEq, Repr

/-- WorkspaceManager::migrate_legacy_worktree (workspace_manager.rs lines
322-373): detect the legacy layout, move the tree to a temporary sibling
path, recreate workspace_dir, move the tree into the expected path. The
two moves are the working-tree primitive (modelled from the spec), with
their outcomes injected; each failure is propagated immediately with no
rollback. -/
def migrate_legacy_worktree (fs : MigrateFS) (move1 move2 : Except String Unit) :
    Except WorkspaceError Bool × MigrateFS :=
  let is_old_style := fs.wdExists && fs.loc == LegacyLoc.inWd
    && !(fs.loc == LegacyLoc.inExpected)
  if !is_old_style then
    (.ok false, fs)
  else
    match move1 with
    | .error e => (.error (.Worktree e), fs)
    | .ok _ =>
      let fs : MigrateFS := { loc := LegacyLoc.inTemp, wdExists := false }
      let fs : MigrateFS := { fs with wdExists := true }
      match move2 with
      | .error e => (.error (.Worktree e), fs)
      | .ok _ => (.ok true, { fs with loc := LegacyLoc.inExpected })

/-! ### Orphan sweeper -/

/-- The entry loop of cleanup_orphan_workspaces (workspace_manager.rs
lines 421-450): a directory is removed (via
cleanup_workspace_without_repos) exactly when the workspace-record
existence query returns Ok false; on Ok true, and also when the query
itself fails, the directory is kept. -/
def sweepEntries (query : Path → Except String Bool) : List Path → List Path
  | [] => []
  | d :: rest =>
    match query d with
    | .ok false => sweepEntries query rest
    | _ => d :: sweepEntries query rest

/-- WorkspaceManager::cleanup_orphan_workspaces (workspace_manager.rs
lines 392-451) on the model: the operational toggle disables the sweep
entirely; otherwise each immediate subdirectory of the base directory is
swept. The result is the list of directories remaining afterwards. -/
def cleanup_orphan_workspaces (disabled : Bool) (query : Path → Except String Bool)
    (dirs : List Path) : List Path :=
  if disabled then dirs else sweepEntries query dirs

/-! ## Auxiliary definitions for the theorems -/

/-- The worktree record create_workspace builds for one input repo. -/
def mkWorktree (branch_name : String) (x : RepoWorkspaceInput) : RepoWorktree :=
  ⟨x.repo.id, x.repo.name, x.repo.path, compute_worktree_path x.repo.path branch_name⟩

/-- The action of addWorktree on the worktree list alone. -/
def addL (l : List Path) (p : Path) : List Path :=
  if p ∈ l then l else p :: l

/-- The action of removeWorktree on the worktree list alone. -/
def removeL (l : List Path) (p : Path) : List Path :=
  l.filter (fun q => q != p)

/-- The concrete queue of spec scenario 3: tasks T1, T2, T3 of project 7
in sequential mode at positions 1, 2, 3. -/
def reorderExampleDb : List Task :=
  [⟨1, 7, .Todo, .Sequential, some 1⟩,
   ⟨2, 7, .Todo, .Sequential, some 2⟩,
   ⟨3, 7, .Todo, .Sequential, some 3⟩]

/-- The concrete database of spec scenario 5: T1 Done, T2 Todo, both
sequential in project 7. -/
def advanceExampleDb : List Task :=
  [⟨1, 7, .Done, .Sequential, some 1⟩,
   ⟨2, 7, .Todo, .Sequential, some 2⟩]

/-! ## Helper lemmas -/

theorem string_data_append (s t : String) : (s ++ t).data = s.data ++ t.data := by
  cases s; cases t; rfl

theorem string_eq_of_data_eq {s t : String} (h : s.data = t.data) : s = t := by
  cases s; cases t; simp_all

theorem mem_insertByPos {a t : Task} {l : List Task} :
    a ∈ insertByPos t l ↔ a = t ∨ a ∈ l := by
  induction l with
  | nil => simp [insertByPos]
  | cons u us ih =>
    simp only [insertByPos]
    split
    · simp only [List.mem_cons, ih]
      tauto
    · simp [List.mem_cons]

theorem mem_sortByPos {a : Task} {l : List Task} : a ∈ sortByPos l ↔ a ∈ l := by
  induction l with
  | nil => simp [sortByPos]
  | cons t ts ih =>
    simp only [sortByPos, List.foldr_cons] at ih ⊢
    rw [mem_insertByPos, ih, List.mem_cons]

theorem mem_sweepEntries (query : Path → Except String Bool) (dirs : List Path) (d : Path) :
    d ∈ sweepEntries query dirs ↔ d ∈ dirs ∧ query d ≠ Except.ok false := by
  induction dirs with
  | nil => simp [sweepEntries]
  | cons x rest ih =>
    cases hq : query x with
    | ok b =>
      cases b with
      | false =>
        simp only [sweepEntries, hq]
        rw [ih]
        constructor
        · rintro ⟨hd, hq2⟩
          exact ⟨List.mem_cons_of_mem _ hd, hq2⟩
        · rintro ⟨hd, hq2⟩
          rcases List.mem_cons.mp hd with h | h
          · subst h
            exact absurd hq hq2
          · exact ⟨h, hq2⟩
      | true =>
        simp only [sweepEntries, hq, List.mem_cons]
        rw [ih]
        constructor
        · rintro (h | ⟨hd, hq2⟩)
          · subst h
            exact ⟨Or.inl rfl, by simp [hq]⟩
          · exact ⟨Or.inr hd, hq2⟩
        · rintro ⟨hd | hd, hq2⟩
          · exact Or.inl hd
          · exact Or.inr ⟨hd, hq2⟩
    | error e =>
      simp only [sweepEntries, hq, List.mem_cons]
      rw [ih]
      constructor
      · rintro (h | ⟨hd, hq2⟩)
        · subst h
          exact ⟨Or.inl rfl, by simp [hq]⟩
        · exact ⟨Or.inr hd, hq2⟩
      · rintro ⟨hd | hd, hq2⟩
        · exact Or.inl hd
        · exact Or.inr ⟨hd, hq2⟩

theorem ensureRepoStep_const (s : RepoSlots) : ensureRepoStep s = ⟨OldSlot.link, true⟩ := by
  obtain ⟨o, n⟩ := s
  cases o <;> cases n <;> rfl

theorem createLoop_fail (wd : Path) (branch_name : String)
    (create : Nat → Except String Unit) (c : String) (pre : List RepoWorkspaceInput) :
    ∀ (r : RepoWorkspaceInput) (rest : List RepoWorkspaceInput) (i : Nat)
      (created : List RepoWorktree) (fs : WsFS),
      (∀ j, j < pre.length → create (i + j) = .ok ()) →
      create (i + pre.length) = .error c →
      createLoop wd branch_name create (pre ++ r :: rest) i created fs =
        (.error (.PartialCreation r.repo.name c),
         removeDirIfEmpty
           (rollbackWorktrees (created ++ pre.map (mkWorktree branch_name))
             ((pre.map (fun x => compute_worktree_path x.repo.path branch_name)).foldl
               addWorktree fs))
           wd) := by
  induction pre with
  | nil =>
    intro r rest i created fs hok hfail
    simp only [List.length_nil, Nat.add_zero] at hfail
    simp [createLoop, hfail]
  | cons x pre ih =>
    intro r rest i created fs hok hfail
    have h0 : create i = .ok () := by
      have h := hok 0 (by simp)
      simpa using h
    have ihr := ih r rest (i + 1)
      (created ++ [mkWorktree branch_name x])
      (addWorktree fs (compute_worktree_path x.repo.path branch_name))
      (fun j hj => by
        have h := hok (j + 1) (by simpa using Nat.succ_lt_succ hj)
        rw [← h]
        congr 1
        omega)
      (by
        rw [← hfail]
        congr 1
        simp
        omega)
    simp only [List.cons_append, createLoop, h0]
    refine ihr.trans ?_
    simp [mkWorktree, List.append_assoc]

theorem foldl_addWorktree_parts (ps : List Path) :
    ∀ fs : WsFS, (ps.foldl addWorktree fs).dirs = fs.dirs
      ∧ (ps.foldl addWorktree fs).symlinks = fs.symlinks
      ∧ (ps.foldl addWorktree fs).worktrees = ps.foldl addL fs.worktrees := by
  induction ps with
  | nil => intro fs; exact ⟨rfl, rfl, rfl⟩
  | cons p ps ih =>
    intro fs
    have h := ih (addWorktree fs p)
    simp only [List.foldl_cons]
    refine ⟨?_, ?_, ?_⟩
    · rw [h.1]
      unfold addWorktree
      split <;> rfl
    · rw [h.2.1]
      unfold addWorktree
      split <;> rfl
    · rw [h.2.2]
      unfold addWorktree addL
      split <;> rfl

theorem foldl_removeWorktree_parts (ps : List Path) :
    ∀ fs : WsFS, (ps.foldl removeWorktree fs).dirs = fs.dirs
      ∧ (ps.foldl removeWorktree fs).symlinks = fs.symlinks
      ∧ (ps.foldl removeWorktree fs).worktrees = ps.foldl removeL fs.worktrees := by
  induction ps with
  | nil => intro fs; exact ⟨rfl, rfl, rfl⟩
  | cons p ps ih =>
    intro fs
    have h := ih (removeWorktree fs p)
    simp only [List.foldl_cons]
    exact ⟨h.1, h.2.1, h.2.2⟩

theorem foldl_addL_filter (p : Path) (ps : List Path) :
    ∀ l1 l2 : List Path, p ∉ ps → l1.filter (fun q => q != p) = l2 →
      (ps.foldl addL l1).filter (fun q => q != p) = ps.foldl addL l2 := by
  induction ps with
  | nil => intro l1 l2 _ h; simpa using h
  | cons q ps ih =>
    intro l1 l2 hp h
    have hqp : q ≠ p := fun e => hp (e ▸ List.mem_cons_self q ps)
    have hps : p ∉ ps := fun hh => hp (List.mem_cons_of_mem q hh)
    have hmem : q ∈ l1 ↔ q ∈ l2 := by
      subst h
      simp [List.mem_filter, bne_iff_ne, hqp]
    simp only [List.foldl_cons]
    by_cases hq : q ∈ l1
    · rw [show addL l1 q = l1 from if_pos hq, show addL l2 q = l2 from if_pos (hmem.mp hq)]
      exact ih l1 l2 hps h
    · rw [show addL l1 q = q :: l1 from if_neg hq,
        show addL l2 q = q :: l2 from if_neg (fun hh => hq (hmem.mpr hh))]
      refine ih (q :: l1) (q :: l2) hps ?_
      rw [List.filter_cons]
      simp [bne_iff_ne, hqp, h]

theorem removeL_addL (ps : List Path) :
    ∀ l : List Path, (∀ p ∈ ps, p ∉ l) → ps.Nodup →
      ps.foldl removeL (ps.foldl addL l) = l := by
  induction ps with
  | nil => intro l _ _; rfl
  | cons p ps ih =>
    intro l hfresh hnodup
    simp only [List.foldl_cons]
    have hpl : p ∉ l := hfresh p (List.mem_cons_self p ps)
    have hpps : p ∉ ps := (List.nodup_cons.mp hnodup).1
    rw [show addL l p = p :: l from if_neg hpl]
    have hstep : removeL (ps.foldl addL (p :: l)) p = ps.foldl addL l := by
      unfold removeL
      refine foldl_addL_filter p ps (p :: l) l hpps ?_
      rw [List.filter_cons]
      simp only [bne_self_eq_false, Bool.false_eq_true, if_false]
      exact List.filter_eq_self.mpr
        (fun q hq => bne_iff_ne.mpr (fun e => hpl (e ▸ hq)))
    rw [hstep]
    exact ih l (fun q hq => hfresh q (List.mem_cons_of_mem p hq)) (List.nodup_cons.mp hnodup).2

theorem strictUnder_self (d : Path) : strictUnder d d = false := by
  simp [strictUnder]

theorem rollback_map (branch_name : String) (pre : List RepoWorkspaceInput) (Q : WsFS) :
    rollbackWorktrees (pre.map (mkWorktree branch_name)) Q =
      (pre.map (fun x => compute_worktree_path x.repo.path branch_name)).foldl
        removeWorktree Q := by
  unfold rollbackWorktrees
  rw [List.foldl_map, List.foldl_map]
  rfl

/-! ## Claim theorems -/

/-- Claim C1 (code divergence). The claim states that on the queue T1(1),
T2(2), T3(3) the call reorder(P, T3, 1) yields T3(1), T1(2), T2(3) and
that positions always stay a dense ascending 1-based sequence. The code
instead renumbers the other tasks to 1 and 3 and assigns position 1 to
the moved task as well: the result duplicates position 1 and skips
position 2, so the dense-queue invariant is broken. This theorem
evaluates the embedded reorder at exactly that input. -/
theorem reorder_to_front_duplicates_position :
    reorder reorderExampleDb 7 3 1 =
      .ok [⟨1, 7, .Todo, .Sequential, some 1⟩,
           ⟨2, 7, .Todo, .Sequential, some 3⟩,
           ⟨3, 7, .Todo, .Sequential, some 1⟩] := rfl

/-- Claim C2 counterexample. The claim states that a directory whose
workspace-record existence query fails with an error is treated as
orphaned and removed. In the code the cleanup branch is taken only when
the query returns Ok false, so on a query error the directory survives
the sweep: with one directory and a query that always fails, the sweep
returns the directory unchanged rather than removing it. -/
theorem sweep_keeps_directory_on_query_error :
    cleanup_orphan_workspaces false (fun _ => .error "db down") [["ws1"]] = [["ws1"]]
    ∧ ([["ws1"]] : List Path) ≠ [] :=
  ⟨rfl, by decide⟩

/-- Claim C2 as amended. A directory found in the workspace base
directory survives the sweep exactly when it is not confirmed orphaned:
it is removed if and only if the existence query returns Ok false; both
an Ok true answer and a query error leave it in place. -/
theorem sweep_removes_directory_iff_query_ok_false
    (query : Path → Except String Bool) (dirs : List Path) (d : Path) :
    d ∈ cleanup_orphan_workspaces false query dirs ↔
      d ∈ dirs ∧ query d ≠ Except.ok false := by
  have h : cleanup_orphan_workspaces false query dirs = sweepEntries query dirs := rfl
  rw [h, mem_sweepEntries]

/-- Claim C3. When the repos list is pre ++ r :: rest, worktree creation
succeeds for every repo of pre and fails for r with cause c, and the
initial filesystem contains neither the workspace directory, anything
below it, nor any of the prefix worktree paths (which are pairwise
distinct), then create_workspace rolls back every created worktree,
removes the shared directory it created, and returns PartialCreation
naming r and c; the final filesystem equals the initial one, so zero
worktrees of this build and no shared directory remain. -/
theorem create_workspace_failure_rolls_back_completely (fs : WsFS) (wd : Path)
    (branch_name : String) (create : Nat → Except String Unit) (c : String)
    (pre : List RepoWorkspaceInput) (r : RepoWorkspaceInput) (rest : List RepoWorkspaceInput)
    (hok : ∀ j, j < pre.length → create j = .ok ())
    (hfail : create pre.length = .error c)
    (hfresh : ∀ x ∈ pre, compute_worktree_path x.repo.path branch_name ∉ fs.worktrees)
    (hnodup : (pre.map (fun x => compute_worktree_path x.repo.path branch_name)).Nodup)
    (hwd : wd ∉ fs.dirs)
    (hcd : ∀ d ∈ fs.dirs, strictUnder wd d = false)
    (hcw : ∀ w ∈ fs.worktrees, strictUnder wd w = false)
    (hcs : ∀ s ∈ fs.symlinks, strictUnder wd s.1 = false) :
    create_workspace fs wd (pre ++ r :: rest) branch_name create =
      (.error (.PartialCreation r.repo.name c), fs) := by
  obtain ⟨ds, ws, ss⟩ := fs
  have hne : ((pre ++ r :: rest).isEmpty) = false := by simp
  have hcda : createDirAll ⟨ds, ws, ss⟩ wd = ⟨wd :: ds, ws, ss⟩ := by
    unfold createDirAll
    rw [if_neg hwd]
  have hloop := createLoop_fail wd branch_name create c pre r rest 0 []
    (⟨wd :: ds, ws, ss⟩ : WsFS)
    (fun j hj => by rw [Nat.zero_add]; exact hok j hj)
    (by rw [Nat.zero_add]; exact hfail)
  have hfreshP : ∀ p ∈ pre.map (fun x => compute_worktree_path x.repo.path branch_name),
      p ∉ ws := by
    intro p hp
    obtain ⟨x, hx, hxe⟩ := List.mem_map.mp hp
    rw [← hxe]
    exact hfresh x hx
  have hY : (pre.map (fun x => compute_worktree_path x.repo.path branch_name)).foldl
        removeWorktree
        ((pre.map (fun x => compute_worktree_path x.repo.path branch_name)).foldl
          addWorktree ⟨wd :: ds, ws, ss⟩) =
      (⟨wd :: ds, ws, ss⟩ : WsFS) := by
    have hr := foldl_removeWorktree_parts
      (pre.map (fun x => compute_worktree_path x.repo.path branch_name))
      ((pre.map (fun x => compute_worktree_path x.repo.path branch_name)).foldl
        addWorktree ⟨wd :: ds, ws, ss⟩)
    have ha := foldl_addWorktree_parts
      (pre.map (fun x => compute_worktree_path x.repo.path branch_name))
      (⟨wd :: ds, ws, ss⟩ : WsFS)
    calc (pre.map (fun x => compute_worktree_path x.repo.path branch_name)).foldl
          removeWorktree
          ((pre.map (fun x => compute_worktree_path x.repo.path branch_name)).foldl
            addWorktree ⟨wd :: ds, ws, ss⟩)
        = ⟨((pre.map (fun x => compute_worktree_path x.repo.path branch_name)).foldl
             removeWorktree
             ((pre.map (fun x => compute_worktree_path x.repo.path branch_name)).foldl
               addWorktree ⟨wd :: ds, ws, ss⟩)).dirs,
           ((pre.map (fun x => compute_worktree_path x.repo.path branch_name)).foldl
             removeWorktree
             ((pre.map (fun x => compute_worktree_path x.repo.path branch_name)).foldl
               addWorktree ⟨wd :: ds, ws, ss⟩)).worktrees,
           ((pre.map (fun x => compute_worktree_path x.repo.path branch_name)).foldl
             removeWorktree
             ((pre.map (fun x => compute_worktree_path x.repo.path branch_name)).foldl
               addWorktree ⟨wd :: ds, ws, ss⟩)).symlinks⟩ := rfl
      _ = ⟨wd :: ds, ws, ss⟩ := by
          rw [hr.1, ha.1, hr.2.1, ha.2.1, hr.2.2, ha.2.2]
          rw [removeL_addL (pre.map (fun x => compute_worktree_path x.repo.path branch_name))
            ws hfreshP hnodup]
  have hrd : removeDirIfEmpty (⟨wd :: ds, ws, ss⟩ : WsFS) wd = ⟨ds, ws, ss⟩ := by
    unfold removeDirIfEmpty
    rw [if_pos ?_]
    · have hfil : (wd :: ds).filter (fun q => q != wd) = ds := by
        rw [List.filter_cons]
        simp only [bne_self_eq_false, Bool.false_eq_true, if_false]
        exact List.filter_eq_self.mpr
          (fun q hq => bne_iff_ne.mpr (fun e => hwd (e ▸ hq)))
      simp only [hfil]
    · simp only [Bool.and_eq_true, decide_eq_true_eq, List.all_eq_true, Bool.not_eq_true']
      refine ⟨⟨⟨List.mem_cons_self wd ds, ?_⟩, hcw⟩, hcs⟩
      intro q hq
      rcases List.mem_cons.mp hq with h | h
      · rw [h]
        exact strictUnder_self wd
      · exact hcd q h
  simp only [create_workspace, hne, Bool.false_eq_true, if_false, hcda]
  rw [hloop, List.nil_append, rollback_map, hY, hrd]

/-- Claim C3 witness. Two repos on an empty filesystem; creation succeeds
for repo A and fails for repo B with cause boom: the build returns
PartialCreation naming B with the cause, and the filesystem is empty
again afterwards. -/
theorem create_workspace_rollback_witness :
    create_workspace ⟨[], [], []⟩ ["tmp", "ws"]
      [⟨⟨1, "A", ["home", "u", "A"]⟩, "main"⟩, ⟨⟨2, "B", ["home", "u", "B"]⟩, "main"⟩]
      "feat" (fun i => if i = 0 then .ok () else .error "boom") =
      (.error (.PartialCreation "B" "boom"), ⟨[], [], []⟩) := by
  have h := create_workspace_failure_rolls_back_completely ⟨[], [], []⟩ ["tmp", "ws"] "feat"
    (fun i => if i = 0 then .ok () else .error "boom") "boom"
    [⟨⟨1, "A", ["home", "u", "A"]⟩, "main"⟩] ⟨⟨2, "B", ["home", "u", "B"]⟩, "main"⟩ []
    (fun j hj => by
      have hj0 : j = 0 := by simpa using hj
      subst hj0
      rfl)
    rfl
    (by simp)
    (by simp)
    (by simp)
    (by simp)
    (by simp)
    (by simp)
  exact h

/-- Claim C4. For a completed task whose status is terminal for
scheduling and whose database row agrees with it on status: the advance
step returns none whenever another sequential task of the same project is
InProgress; it never returns the completed task itself; when the task is
sequential and no sequential task of the project is running it returns
exactly the first pending (Todo) task in queue order; and when the task
was not sequential it returns none. -/
theorem process_queue_after_completion_spec (db : List Task) (ct : Task)
    (hterm : ct.status = TaskStatus.Done ∨ ct.status = TaskStatus.Cancelled
      ∨ ct.status = TaskStatus.InReview)
    (hdb : ∀ t ∈ db, t.id = ct.id → t.status = ct.status) :
    (∀ u ∈ db, u.id ≠ ct.id → u.project_id = ct.project_id →
        u.execution_mode = ExecutionMode.Sequential → u.status = TaskStatus.InProgress →
        process_queue_after_completion db ct = none)
    ∧ (∀ t, process_queue_after_completion db ct = some t → t.id ≠ ct.id)
    ∧ (ct.execution_mode = ExecutionMode.Sequential →
        has_running_sequential_task db ct.project_id = false →
        process_queue_after_completion db ct = get_next_in_queue db ct.project_id)
    ∧ (ct.execution_mode ≠ ExecutionMode.Sequential →
        process_queue_after_completion db ct = none) := by
  refine ⟨?_, ?_, ?_, ?_⟩
  · intro u hu hne hproj hmode hstat
    by_cases hs : ct.execution_mode = ExecutionMode.Sequential
    · have hr : has_running_sequential_task db ct.project_id = true := by
        unfold has_running_sequential_task
        rw [List.any_eq_true]
        exact ⟨u, hu, by simp [hproj, hmode, hstat]⟩
      rcases hterm with h | h | h <;> simp [process_queue_after_completion, hs, hr, h]
    · simp [process_queue_after_completion, hs]
  · intro t ht heq
    have hget : get_next_in_queue db ct.project_id = some t := by
      by_cases hs : ct.execution_mode = ExecutionMode.Sequential
      · cases hrun : has_running_sequential_task db ct.project_id with
        | true => rcases hterm with h | h | h <;>
            simp [process_queue_after_completion, hs, h, hrun] at ht
        | false => rcases hterm with h | h | h <;>
            simpa [process_queue_after_completion, hs, h, hrun] using ht
      · simp [process_queue_after_completion, hs] at ht
    have hmem : t ∈ find_sequential_queue_for_project db ct.project_id :=
      List.mem_of_find?_eq_some hget
    have htodo : t.status = TaskStatus.Todo := by
      have hfs := List.find?_some hget
      simpa using hfs
    have htdb : t ∈ db := by
      simp only [find_sequential_queue_for_project] at hmem
      rw [mem_sortByPos] at hmem
      exact (List.mem_filter.mp hmem).1
    have hst := hdb t htdb heq
    rcases hterm with h | h | h <;> rw [h, htodo] at hst <;> exact absurd hst (by decide)
  · intro hs hr
    rcases hterm with h | h | h <;> simp [process_queue_after_completion, hs, hr, h]
  · intro hs
    simp [process_queue_after_completion, hs]

/-- Claim C4 witness (spec scenario 5): T1 sequential and Done, T2 the
next Todo in queue, nothing running: the advance step returns T2. -/
theorem process_queue_after_completion_witness :
    process_queue_after_completion advanceExampleDb ⟨1, 7, .Done, .Sequential, some 1⟩ =
      some ⟨2, 7, .Todo, .Sequential, some 2⟩ := by
  have h := (process_queue_after_completion_spec advanceExampleDb
    ⟨1, 7, .Done, .Sequential, some 1⟩ (by decide) (by decide)).2.2.1 rfl (by decide)
  exact h.trans rfl

/-- Claim C5 counterexample. The claim states compute_path is injective
over distinct pairs of repo path and sanitized branch. The hyphen that
joins repo name and branch is ambiguous: repo a-b with branch c and repo
a with branch b-c map to the same sibling path a-b-c although both the
repo paths and the sanitized branches differ. -/
theorem compute_worktree_path_not_injective :
    compute_worktree_path ["home", "user", "a-b"] "c" =
      compute_worktree_path ["home", "user", "a"] "b-c"
    ∧ (["home", "user", "a-b"] : Path) ≠ ["home", "user", "a"]
    ∧ sanitizeBranch "c" ≠ sanitizeBranch "b-c" := by decide

/-- Claim C5 as amended. compute_path is a pure deterministic function
(identical inputs give identical output), and it is injective in the
branch for a fixed repo path: distinct sanitized branches give distinct
worktree paths. Full injectivity over distinct pairs fails, by the
counterexample above. -/
theorem compute_worktree_path_deterministic_branch_injective (r : Path) (b1 b2 : String)
    (hne : sanitizeBranch b1 ≠ sanitizeBranch b2) :
    compute_worktree_path r b1 = compute_worktree_path r b1
    ∧ compute_worktree_path r b1 ≠ compute_worktree_path r b2 := by
  refine ⟨rfl, fun h => hne ?_⟩
  unfold compute_worktree_path at h
  have h2 := List.append_cancel_left h
  have h3 : (r.getLast?.getD "repo") ++ "-" ++ sanitizeBranch b1
      = (r.getLast?.getD "repo") ++ "-" ++ sanitizeBranch b2 := by
    simpa using h2
  have h4 := congrArg String.data h3
  rw [string_data_append, string_data_append, string_data_append, string_data_append] at h4
  exact string_eq_of_data_eq (List.append_cancel_left h4)

/-- Claim C5 witness: branches x and y sanitize differently, and for the
same repo they give different worktree paths. -/
theorem compute_worktree_path_branch_injective_witness :
    sanitizeBranch "x" ≠ sanitizeBranch "y"
    ∧ compute_worktree_path ["r"] "x" ≠ compute_worktree_path ["r"] "y" :=
  ⟨by decide,
   (compute_worktree_path_deterministic_branch_injective ["r"] "x" "y" (by decide)).2⟩

/-- Claim C6. Calling build with an empty repository list fails with
NoRepositories immediately and with no side effects: for every starting
filesystem the returned state is exactly the input state, so no directory
is created and no worktree primitive outcome is even consulted. -/
theorem create_workspace_empty_repos_no_side_effects (fs : WsFS) (wd : Path)
    (branch_name : String) (create : Nat → Except String Unit) :
    create_workspace fs wd [] branch_name create = (.error .NoRepositories, fs) := rfl

/-- Claim C7. The reconcile pass is idempotent on the filesystem state:
for every starting state, running ensure_workspace_exists a second time
on the state left by the first run returns that same state unchanged
(this also covers the empty-repos error path, which never mutates). -/
theorem ensure_workspace_exists_idempotent (fs : EnsureFS) :
    (ensure_workspace_exists (ensure_workspace_exists fs).2).2 =
      (ensure_workspace_exists fs).2 := by
  obtain ⟨w, slots⟩ := fs
  cases slots with
  | nil => rfl
  | cons s rest =>
    simp [ensure_workspace_exists, List.map_map, Function.comp, ensureRepoStep_const]

/-- Claim C8. Reconcile called with an empty repository list fails with
NoRepositories before any filesystem mutation: whether or not the shared
directory already exists, the state is returned untouched, so in
particular the shared directory is not created. -/
theorem ensure_workspace_exists_empty_repos_no_mutation (wdAlready : Bool) :
    ensure_workspace_exists ⟨wdAlready, []⟩ =
      (.error .NoRepositories, ⟨wdAlready, []⟩) := rfl

/-- Claim C9. When the legacy layout is detected (working tree at the
workspace directory itself), the first move to the temporary sibling path
succeeds and the second move into the expected path fails, the error is
propagated and the working tree stays at the temporary path: the final
state has the tree at the temporary location with the workspace directory
recreated empty and nothing at the expected path — no rollback. -/
theorem migrate_legacy_worktree_second_move_failure_leaves_temp :
    migrate_legacy_worktree ⟨LegacyLoc.inWd, true⟩ (.ok ()) (.error "move failed") =
      (.error (.Worktree "move failed"), ⟨LegacyLoc.inTemp, true⟩) := rfl

/-- Claim C10. A sequential task whose queue_position is unset is treated
by reorder as sitting at position 0: the call reorder(project, task, 0)
returns success immediately as a no-op, updating no position of any task
in the project. -/
theorem reorder_unset_position_zero_noop (db : List Task) (pid tid : Nat) (t : Task)
    (hfind : find_by_id db tid = some t)
    (hmode : t.execution_mode = ExecutionMode.Sequential)
    (hpos : t.queue_position = none) :
    reorder db pid tid 0 = .ok db := by
  simp [reorder, hfind, hmode, hpos]

/-- Claim C10 witness: a single sequential task with no queue position;
reorder to position 0 returns the database unchanged. -/
theorem reorder_unset_position_zero_noop_witness :
    reorder [⟨1, 7, .Todo, .Sequential, none⟩] 7 1 0 =
      .ok [⟨1, 7, .Todo, .Sequential, none⟩] :=
  reorder_unset_position_zero_noop [⟨1, 7, .Todo, .Sequential, none⟩] 7 1
    ⟨1, 7, .Todo, .Sequential, none⟩ rfl rfl rfl

end VibeKanban

